import Mathlib

/-!
Verification of the caching core and ranking/aggregation engine of the
analyze-it-trends-mcp-server repository.

The definitions below are a shallow embedding of the Python sources:
  - `src/utils/cache_manager.py` (class `CacheManager`)
  - `src/utils/data_processor.py` (class `DataProcessor`)
  - `src/tools/reddit_analyzer.py` (`RedditAnalyzer.rank_by_popularity`)
  - `src/server.py` (the cache-key expressions of the tool handlers)

Modelling conventions:
  - JSON-serializable values are modelled by the small inductive `JValue`;
    only null-versus-non-null and equality of values matter to the cache.
  - Python floats are modelled by exact rationals (`Rat`).  Every concrete
    input appearing in a theorem below is far from any comparison boundary,
    so the exact-rational and IEEE-double evaluations agree there.
  - Wall-clock time (`time.time()`) is an explicit `Int` parameter `now`.
  - The file backend of `CacheManager` is modelled (the repository default;
    `self._redis` is `None` unless a redis URL is configured).  The
    filesystem is an association list from file name to file content;
    `FileData.bad` stands for a file whose read or JSON parse raises
    (missing "value"/"expires_at" structure, I/O error, malformed JSON).
  - A backend write failure (the `except: pass` in `CacheManager.set`) is
    modelled by the `writeOk` flag: a failed write leaves the store as it
    was.
  - Python's stable `sorted` is modelled by `List.insertionSort`, which is
    stable for the same comparison; stable sorts agree on all inputs.
  - Python dicts are modelled by insertion-ordered association lists.
-/

/-- A JSON value as stored by the cache.  `null` doubles as Python's
`None`; the cache treats a stored `null` as a miss. -/
inductive JValue where
  | null : JValue
  | str : String → JValue
  | num : Rat → JValue
deriving DecidableEq, Repr

/-- Content of one cache file.  `entry v e` is the well-formed body
`{"value": v, "expires_at": e}` (`e = none` models JSON null or a missing
key); `bad` is a file whose read or parse raises (caught by `get`). -/
inductive FileData where
  | entry : JValue → Option Int → FileData
  | bad : FileData
deriving DecidableEq, Repr

/-- State of a `CacheManager` over the file backend: the `enabled` and
`ttl` configuration plus the contents of the cache directory. -/
structure CacheState where
  enabled : Bool
  ttl_default : Int
  files : List (String × FileData)
deriving DecidableEq, Repr

/-- First-match association-list lookup: the file stored under a name. -/
def fsLookup (name : String) : List (String × FileData) → Option FileData
  | [] => none
  | (n, d) :: t => if n = name then some d else fsLookup name t

/-- Overwrite the file `name` with `d` (any previous file at that name is
replaced, as `Path.write_text` does). -/
def fsStore (files : List (String × FileData)) (name : String) (d : FileData) :
    List (String × FileData) :=
  files.filter (fun kv => !(kv.1 == name)) ++ [(name, d)]

/-- Model of `ttl_use = int(ttl or self.ttl_default)` from `CacheManager.set`:
Python's `or` makes both `None` and `0` fall back to the default. -/
def ttlUse (ttlDefault : Int) (ttl : Option Int) : Int :=
  match ttl with
  | none => ttlDefault
  | some t => if t = 0 then ttlDefault else t

/-- The freshness test of `CacheManager.get`:
`if data.get("expires_at") and data["expires_at"] < time.time()`.
Python truthiness makes an absent, null, or zero `expires_at` permanent. -/
def expiredB (e : Option Int) (now : Int) : Bool :=
  match e with
  | none => false
  | some t => if t = 0 then false else decide (t < now)

/-- Python's `str.lower()` (ASCII case folding, character by character;
`String.toLower` itself is avoided because its `String.mapAux` loop does
not reduce in the kernel). -/
def pyLower (s : String) : String := String.mk (s.data.map Char.toLower)

/-- Python's `str.strip()`: drop whitespace from both ends. -/
def pyStrip (s : String) : String :=
  String.mk (((s.data.dropWhile Char.isWhitespace).reverse.dropWhile
    Char.isWhitespace).reverse)

/-- Single-wildcard glob matching: `*` matches any substring at its
position, every other character matches itself.  This is the fragment of
`glob.glob` semantics used by `CacheManager.invalidate` for patterns that
avoid the rarer `?` and `[...]` forms. -/
def globMatch : List Char → List Char → Bool
  | [], s => s.isEmpty
  | '*' :: ps, s => s.tails.any fun t => globMatch ps t
  | _ :: _, [] => false
  | c :: ps, c2 :: s2 => c == c2 && globMatch ps s2

namespace CacheManager

/-- Model of `CacheManager._file_path`: the key with `/` and `:` replaced by `_`,
suffixed `.json` (the constant cache-directory prefix is dropped). -/
def filePath (key : String) : String :=
  String.mk (key.data.map fun c => if c = '/' ∨ c = ':' then '_' else c) ++ ".json"

/-- Model of `CacheManager.get` over the file backend.  Any fault while reading or
parsing the file is caught and yields `None` (here `JValue.null`). -/
def get (st : CacheState) (now : Int) (key : String) : JValue :=
  if st.enabled = false then .null
  else
    match fsLookup (filePath key) st.files with
    | none => .null
    | some .bad => .null
    | some (.entry v e) => if expiredB e now then .null else v

/-- Model of `CacheManager.set` over the file backend.  `writeOk = false` models
`path.write_text` raising; the exception is swallowed (`except: pass`). -/
def set (st : CacheState) (now : Int) (key : String) (value : JValue)
    (ttl : Option Int) (writeOk : Bool) : CacheState :=
  if st.enabled = false then st
  else
    let expires_at := now + ttlUse st.ttl_default ttl
    if writeOk then
      { st with files := fsStore st.files (filePath key) (.entry value (some expires_at)) }
    else st

/-- Model of `CacheManager.invalidate` over the file backend: delete every file in
the cache directory whose name matches the glob `pattern + ".json"`
(the pattern itself is not sanitized), returning the number removed. -/
def invalidate (st : CacheState) (pat : String) : CacheState × Nat :=
  let fullPat := (pat ++ ".json").data
  (⟨st.enabled, st.ttl_default,
    st.files.filter (fun kv => !(globMatch fullPat kv.1.data))⟩,
   (st.files.filter (fun kv => globMatch fullPat kv.1.data)).length)

/-- Model of `CacheManager.get_or_fetch` (and `get_or_fetch_async`, whose body is
identical up to `await`).  The producer is modelled by the value it
returns; the third component counts how often it was invoked. -/
def get_or_fetch (st : CacheState) (now : Int) (key : String)
    (producerValue : JValue) (ttl : Option Int) (writeOk : Bool) :
    JValue × CacheState × Nat :=
  let cached := get st now key
  if cached ≠ JValue.null then (cached, st, 0)
  else (producerValue, set st now key producerValue ttl writeOk, 1)

end CacheManager

/-- One element of a ranked technology list:
`{"technology": ..., "mentions": ...}`. -/
structure TechScore where
  technology : String
  mentions : Rat
deriving DecidableEq, Repr

/-- One source result as consumed by `aggregate_multi_source`:
`{"source": ..., "top_technologies": [...]}`. -/
structure SourceResult where
  source : String
  top_technologies : List TechScore
deriving DecidableEq, Repr

/-- Descending-by-mentions comparison used by both ranking functions
(`sorted(..., key=lambda x: x["mentions"], reverse=True)`). -/
def scoreGE (a b : TechScore) : Prop := b.mentions ≤ a.mentions

instance : DecidableRel scoreGE := fun a b =>
  inferInstanceAs (Decidable (b.mentions ≤ a.mentions))

instance : IsTotal TechScore scoreGE := ⟨fun a b => le_total b.mentions a.mentions⟩

instance : IsTrans TechScore scoreGE := ⟨fun _ _ _ h1 h2 => le_trans h2 h1⟩

/-- Python's `sorted(items, key=mentions, reverse=True)`: a stable
descending sort.  `List.insertionSort scoreGE` is stable for the same
comparison, and all stable sorts agree. -/
def rankDesc (l : List TechScore) : List TechScore :=
  l.insertionSort scoreGE

/-- Model of `agg_counts[tech] = agg_counts.get(tech, 0.0) + m` on an
insertion-ordered dict: update in place if present, else append. -/
def dictAdd (d : List (String × Rat)) (k : String) (m : Rat) :
    List (String × Rat) :=
  if d.any (fun kv => kv.1 == k) then
    d.map (fun kv => if kv.1 == k then (kv.1, kv.2 + m) else kv)
  else d ++ [(k, m)]

/-- First-match lookup in a dict modelled as an association list. -/
def dlookup (k : String) : List (String × Rat) → Option Rat
  | [] => none
  | (k', v) :: t => if k' = k then some v else dlookup k t

namespace DataProcessor

/-- Model of `float(weights.get(src_name, 1.0))`. -/
def srcWeight (weights : List (String × Rat)) (s : String) : Rat :=
  (dlookup s weights).getD 1

/-- The accumulation loop of `DataProcessor.aggregate_multi_source`:
for each source, for each item, add `mentions * weight` at the trimmed,
lower-cased technology name. -/
def aggDict (sources : List SourceResult) (weights : List (String × Rat)) :
    List (String × Rat) :=
  sources.foldl
    (fun d src =>
      src.top_technologies.foldl
        (fun d it =>
          dictAdd d (pyLower (pyStrip it.technology))
            (it.mentions * srcWeight weights src.source))
        d)
    []

/-- Model of `DataProcessor.aggregate_multi_source` (the `top_technologies` list of
its result dict): accumulate weighted mentions per lower-cased name, then
sort descending by mentions. -/
def aggregate_multi_source (sources : List SourceResult)
    (weights : List (String × Rat)) : List TechScore :=
  rankDesc ((aggDict sources weights).map fun kv => ⟨kv.1, kv.2⟩)

/-- Model of `DataProcessor.calculate_growth_rate`. -/
def calculate_growth_rate (series : List (String × Rat)) : Rat :=
  if series.length < 2 then 0
  else
    let start := (series.getD 0 ("", 0)).2
    let last := (series.getLast?.getD ("", 0)).2
    if start = 0 then 0 else (last - start) / |start|

/-- Model of `sum(values) / len(values)` from `DataProcessor.detect_anomalies`. -/
def pyMean (values : List Rat) : Rat := values.sum / (values.length : Rat)

/-- Model of `sum((v - mean) ** 2 for v in values) / max(1, len(values) - 1)`:
the sample variance with the denominator guarded to at least 1. -/
def pyVar (values : List Rat) : Rat :=
  ((values.map (fun v => (v - pyMean values) ^ 2)).sum) /
    ((max 1 (values.length - 1) : Nat) : Rat)

/-- Model of `DataProcessor.detect_anomalies` over exact rationals.  The code
compares `abs(v - mean) / sqrt(var) >= z_thresh`; since rationals have no
square root, the filter uses the equivalent square-free comparison
(`z_thresh < 0` makes the ratio test trivially true).  The theorem for C5
proves this boolean equivalent to the real-valued `sqrt` formulation. -/
def detect_anomalies (values : List Rat) (z_thresh : Rat) : List Nat :=
  if values = [] then []
  else if pyVar values = 0 then []
  else
    (List.range values.length).filter fun i =>
      if z_thresh < 0 then true
      else decide (z_thresh ^ 2 * pyVar values ≤
        (values.getD i 0 - pyMean values) ^ 2)

end DataProcessor

namespace RedditAnalyzer

/-- Model of `RedditAnalyzer.rank_by_popularity`: the `technologies` dict (modelled
as an insertion-ordered association list) turned into a ranked list. -/
def rank_by_popularity (technologies : List (String × Rat)) : List TechScore :=
  rankDesc (technologies.map fun kv => ⟨kv.1, kv.2⟩)

end RedditAnalyzer

/-- Python's `sorted` on a list of strings (code-point lexicographic). -/
def pySorted (l : List String) : List String :=
  l.insertionSort (· ≤ ·)

/-- The `analyze_reddit` cache key (src/server.py line 195):
`f"reddit:{today}:{','.join(sorted(subreddits))}:{lookback_days}:{','.join(sorted([k.lower() for k in keywords]))}"`. -/
def redditCacheKey (today : String) (subreddits : List String)
    (lookback_days : Int) (keywords : List String) : String :=
  "reddit:" ++ today ++ ":" ++ String.intercalate "," (pySorted subreddits) ++
    ":" ++ toString lookback_days ++ ":" ++
    String.intercalate "," (pySorted (keywords.map pyLower))

/-- Model of `{p.strip().lower() for p in platforms if p and isinstance(p, str)}`
as a list (set membership is all that is consumed downstream). -/
def normPlatforms (platforms : List String) : List String :=
  (platforms.filter (fun p => !(p == ""))).map fun p => pyLower (pyStrip p)

/-- The platform set after the `all`/empty default of `analyze_freelance`. -/
def effPlatforms (platforms : List String) : List String :=
  let n := normPlatforms platforms
  if n = [] ∨ "all" ∈ n then ["upwork", "freelancer"] else n

/-- Model of `chosen = sorted(list(normalized & valid))`: the sorted list of the
distinct valid members ("freelancer" < "upwork" lexicographically). -/
def chosenPlatforms (platforms : List String) : List String :=
  (if "freelancer" ∈ effPlatforms platforms then ["freelancer"] else []) ++
    (if "upwork" ∈ effPlatforms platforms then ["upwork"] else [])

/-- Model of `[c.strip().lower() for c in categories if isinstance(c, str) and c.strip()]`:
trim, drop blanks, lower-case, preserving order. -/
def normCategories (categories : List String) : List String :=
  categories.filterMap fun c =>
    if pyStrip c = "" then none else some (pyLower (pyStrip c))

/-- The `analyze_freelance` cache key (src/server.py line 319); `none`
models the `ValueError` raised when no valid platform remains. -/
def freelanceCacheKey (today : String) (platforms : List String)
    (categories : Option (List String)) : Option String :=
  let chosen := chosenPlatforms platforms
  if chosen = [] then none
  else
    some ("freelance:" ++ today ++ ":" ++ String.intercalate "," chosen ++
      ":" ++ String.intercalate "," (normCategories (categories.getD [])))

/-- Model of `[k.strip().lower() for k in keywords if isinstance(k, str) and k.strip()]`
from `search_trends`. -/
def trendsNormKeywords (keywords : List String) : List String :=
  keywords.filterMap fun k =>
    if pyStrip k = "" then none else some (pyLower (pyStrip k))

/-- The `search_trends` cache key (src/server.py line 404), including the
`timeframe or "now 7-d"` / `region or "US"` truthiness defaults. -/
def trendsCacheKey (today : String) (keywords : List String)
    (timeframe region : String) : String :=
  let tf := if timeframe = "" then "now 7-d" else timeframe
  let reg := if region = "" then "US" else region
  "trends:" ++ today ++ ":" ++
    String.intercalate "," (pySorted (trendsNormKeywords keywords)) ++
    ":" ++ tf ++ ":" ++ reg

/-- Spec-side formula for C4, written from the spec's words: the total
for a technology is the sum, over all sources, of `mentions` times
`weights.get(source, 1.0)` of the entries whose trimmed, lower-cased
name is that technology.  Compared against `aggregate_multi_source`. -/
def specTechTotal (sources : List SourceResult) (weights : List (String × Rat))
    (tech : String) : Rat :=
  (sources.map (fun src =>
    ((src.top_technologies.filter
        (fun it => pyLower (pyStrip it.technology) == tech)).map
      (fun it => it.mentions * DataProcessor.srcWeight weights src.source)).sum)).sum

/-- Sorting with a linear order is permutation-invariant: the sorted list
of a multiset is unique. -/
theorem pySorted_eq_of_perm {l1 l2 : List String} (h : l1.Perm l2) :
    pySorted l1 = pySorted l2 := by
  apply List.eq_of_perm_of_sorted (r := (· ≤ · : String → String → Prop))
  · exact ((List.perm_insertionSort _ l1).trans h).trans
      (List.perm_insertionSort _ l2).symm
  · exact List.sorted_insertionSort _ l1
  · exact List.sorted_insertionSort _ l2

theorem fsLookup_append (name : String) (l1 l2 : List (String × FileData)) :
    fsLookup name (l1 ++ l2) =
      match fsLookup name l1 with
      | some d => some d
      | none => fsLookup name l2 := by
  induction l1 with
  | nil => simp [fsLookup]
  | cons kv t ih =>
    obtain ⟨n, d⟩ := kv
    by_cases hn : n = name <;> simp [fsLookup, hn, ih]

theorem fsLookup_filter_of_keep (name : String) (p : String × FileData → Bool)
    (files : List (String × FileData)) (h : ∀ d, p (name, d) = true) :
    fsLookup name (files.filter p) = fsLookup name files := by
  induction files with
  | nil => rfl
  | cons kv t ih =>
    obtain ⟨n, d⟩ := kv
    by_cases hn : n = name
    · subst hn; simp [List.filter, h d, fsLookup, ih]
    · cases hp : p (n, d) <;> simp [List.filter, hp, fsLookup, hn, ih]

theorem fsLookup_filter_of_drop (name : String) (p : String × FileData → Bool)
    (files : List (String × FileData)) (h : ∀ d, p (name, d) = false) :
    fsLookup name (files.filter p) = none := by
  induction files with
  | nil => rfl
  | cons kv t ih =>
    obtain ⟨n, d⟩ := kv
    by_cases hn : n = name
    · subst hn; simp [List.filter, h d, ih]
    · cases hp : p (n, d) <;> simp [List.filter, hp, fsLookup, hn, ih]

/-- After `fsStore`, looking up the stored name finds the new file. -/
theorem fsLookup_fsStore_self (files : List (String × FileData))
    (name : String) (d : FileData) :
    fsLookup name (fsStore files name d) = some d := by
  unfold fsStore
  rw [fsLookup_append,
    fsLookup_filter_of_drop name _ files (fun d' => by simp)]
  simp [fsLookup]

/-- `fsStore` leaves every other file name untouched. -/
theorem fsLookup_fsStore_other (files : List (String × FileData))
    (name other : String) (d : FileData) (h : other ≠ name) :
    fsLookup other (fsStore files name d) = fsLookup other files := by
  unfold fsStore
  rw [fsLookup_append,
    fsLookup_filter_of_keep other _ files (fun d' => by simp [h])]
  have hne : ¬name = other := fun hh => h hh.symm
  cases hl : fsLookup other files <;> simp [fsLookup, hne]

/-- Staleness is monotone in time. -/
theorem expiredB_mono {e : Option Int} {t t' : Int} (h : expiredB e t = true)
    (htt : t ≤ t') : expiredB e t' = true := by
  cases e with
  | none => simp [expiredB] at h
  | some x =>
    simp only [expiredB] at h ⊢
    by_cases hx : x = 0
    · simp [hx] at h
    · simp only [if_neg hx, decide_eq_true_eq] at h ⊢
      omega

/-- A key that misses stays a miss at any later time (nothing written). -/
theorem get_null_mono (st : CacheState) (t t' : Int) (key : String)
    (h : CacheManager.get st t key = JValue.null) (htt : t ≤ t') :
    CacheManager.get st t' key = JValue.null := by
  unfold CacheManager.get at h ⊢
  by_cases hen : st.enabled = false
  · simp [hen]
  · simp only [if_neg hen] at h ⊢
    cases hl : fsLookup (CacheManager.filePath key) st.files with
    | none => simp
    | some fd =>
      cases fd with
      | bad => simp
      | entry v e =>
        simp only [hl] at h
        cases hexp : expiredB e t with
        | true => simp [expiredB_mono hexp htt]
        | false =>
          simp only [hexp, if_false] at h
          subst h
          cases expiredB e t' <;> simp

/-- A freshly `set` value is readable at the write time itself whenever the
effective ttl is non-negative. -/
theorem get_set_fresh (st : CacheState) (now : Int) (key : String)
    (v : JValue) (ttl : Option Int) (hen : st.enabled = true)
    (httl : 0 ≤ ttlUse st.ttl_default ttl) :
    CacheManager.get (CacheManager.set st now key v ttl true) now key = v := by
  unfold CacheManager.get CacheManager.set
  simp only [hen, Bool.true_eq_false, if_false, if_true, fsLookup_fsStore_self]
  have : expiredB (some (now + ttlUse st.ttl_default ttl)) now = false := by
    simp only [expiredB]
    by_cases hz : now + ttlUse st.ttl_default ttl = 0
    · simp [hz]
    · simp only [if_neg hz, decide_eq_false_iff_not]
      omega
  simp [this]

/-- C3 counterexample: the claim "after set(key, value, ttl) ... get(key)
returns absent at any time after expires_at = write-time + ttl" fails at
`ttl = 0`.  With default ttl 100, `set` at time 10 with `ttl = 0` stores
`expires_at = 110` (Python's `ttl or self.ttl_default` discards a zero
ttl), so at time 11 — strictly after the claim's `expires_at = 10 + 0` —
`get` still returns the stored value instead of absent. -/
theorem ttl_zero_counterexample :
    CacheManager.get
      (CacheManager.set ⟨true, 100, []⟩ 10 "k" (JValue.str "x") (some 0) true)
      11 "k" = JValue.str "x"
    ∧ JValue.str "x" ≠ JValue.null := by
  constructor
  · decide
  · decide

/-- C3 (amended): with caching enabled, after `set(key, value, ttl)` the
stored expiry is `expires_at = write-time + effective ttl`, where the
effective ttl is the explicit ttl when it is neither absent nor 0 and the
store default otherwise; provided that `expires_at` is non-zero (a zero
`expires_at` is falsy and never expires), `get` returns the stored value
at any time strictly before `expires_at` and absent at any time strictly
after, with no explicit eviction call; and an entry whose `expires_at` is
absent is valid at every time. -/
theorem ttl_lazy_expiry (st : CacheState) (now : Int) (key : String)
    (v : JValue) (ttl : Option Int) (hen : st.enabled = true)
    (hnz : now + ttlUse st.ttl_default ttl ≠ 0) :
    (∀ t : Int, t < now + ttlUse st.ttl_default ttl →
      CacheManager.get (CacheManager.set st now key v ttl true) t key = v)
    ∧ (∀ t : Int, now + ttlUse st.ttl_default ttl < t →
      CacheManager.get (CacheManager.set st now key v ttl true) t key =
        JValue.null)
    ∧ (∀ (st' : CacheState) (v' : JValue) (t : Int), st'.enabled = true →
      fsLookup (CacheManager.filePath key) st'.files =
        some (FileData.entry v' none) →
      CacheManager.get st' t key = v') := by
  refine ⟨fun t ht => ?_, fun t ht => ?_, fun st' v' t hen' hl => ?_⟩
  · unfold CacheManager.get CacheManager.set
    simp only [hen, Bool.true_eq_false, if_false, if_true, fsLookup_fsStore_self]
    have : expiredB (some (now + ttlUse st.ttl_default ttl)) t = false := by
      simp only [expiredB, if_neg hnz, decide_eq_false_iff_not]
      omega
    simp [this]
  · unfold CacheManager.get CacheManager.set
    simp only [hen, Bool.true_eq_false, if_false, if_true, fsLookup_fsStore_self]
    have : expiredB (some (now + ttlUse st.ttl_default ttl)) t = true := by
      simp only [expiredB, if_neg hnz, decide_eq_true_eq]
      omega
    simp [this]
  · unfold CacheManager.get
    simp [hen', hl, expiredB]

/-- Witness for `ttl_lazy_expiry` at default ttl 3600, write time 0:
the value is there at time 3599 and gone at time 3601. -/
theorem ttl_lazy_expiry_witness :
    (⟨true, 3600, []⟩ : CacheState).enabled = true
    ∧ (0 : Int) + ttlUse 3600 none ≠ 0
    ∧ CacheManager.get
        (CacheManager.set ⟨true, 3600, []⟩ 0 "k" (JValue.num 5) none true)
        3599 "k" = JValue.num 5
    ∧ CacheManager.get
        (CacheManager.set ⟨true, 3600, []⟩ 0 "k" (JValue.num 5) none true)
        3601 "k" = JValue.null :=
  ⟨rfl, by decide,
    (ttl_lazy_expiry ⟨true, 3600, []⟩ 0 "k" (JValue.num 5) none rfl
      (by decide)).1 3599 (by decide),
    ((ttl_lazy_expiry ⟨true, 3600, []⟩ 0 "k" (JValue.num 5) none rfl
      (by decide)).2).1 3601 (by decide)⟩

/-- C6 counterexample: `invalidate(pattern)` does not remove the entries
whose key matches the pattern.  With exactly the key `"a:b"` cached,
`invalidate("a:b")` — a pattern that matches that key exactly — removes
nothing and returns 0, because the glob is matched against the sanitized
file name `a_b.json`, not against the key. -/
theorem invalidate_key_pattern_counterexample :
    (CacheManager.invalidate
      (CacheManager.set ⟨true, 3600, []⟩ 0 "a:b" (JValue.str "v") none true)
      "a:b").2 = 0
    ∧ CacheManager.get
        (CacheManager.invalidate
          (CacheManager.set ⟨true, 3600, []⟩ 0 "a:b" (JValue.str "v") none true)
          "a:b").1 1 "a:b" = JValue.str "v" := by
  constructor
  · decide
  · decide

/-- Reading after deleting all files whose name matches a fixed pattern:
the read misses when this key's file was deleted, otherwise unchanged. -/
theorem get_after_glob_delete (st : CacheState) (q : List Char)
    (key : String) (now : Int) :
    CacheManager.get
      ⟨st.enabled, st.ttl_default,
        st.files.filter (fun kv => !(globMatch q kv.1.data))⟩ now key =
      if globMatch q (CacheManager.filePath key).data then JValue.null
      else CacheManager.get st now key := by
  cases hm : globMatch q (CacheManager.filePath key).data with
  | true =>
    simp only [if_pos hm]
    unfold CacheManager.get
    by_cases hen : st.enabled = false
    · simp [hen]
    · simp only [if_neg hen]
      rw [fsLookup_filter_of_drop _ _ _ (fun d => by simp [hm])]
      simp
  | false =>
    rw [if_neg (by simp [hm])]
    unfold CacheManager.get
    by_cases hen : st.enabled = false
    · simp [hen]
    · simp only [if_neg hen]
      rw [fsLookup_filter_of_keep _ _ _ (fun d => by simp [hm])]

/-- C6 (amended): `invalidate(pattern)` removes exactly the stored files
whose *sanitized file name* (the key with `/` and `:` replaced by `_`,
suffixed `.json`) matches the glob `pattern + ".json"`, and returns the
number of files so removed; for keys and patterns free of `/` and `:`
this coincides with glob-matching the key. -/
theorem invalidate_filename_glob (st : CacheState) (pat : String) :
    (CacheManager.invalidate st pat).2 =
      (st.files.filter
        (fun kv => globMatch (pat ++ ".json").data kv.1.data)).length
    ∧ ∀ (key : String) (now : Int),
      CacheManager.get (CacheManager.invalidate st pat).1 now key =
        if globMatch (pat ++ ".json").data (CacheManager.filePath key).data
        then JValue.null
        else CacheManager.get st now key := by
  exact ⟨rfl, fun key now => get_after_glob_delete st (pat ++ ".json").data key now⟩

/-- C7: cache faults never propagate.  A backend fault on read (missing
file, or a file whose read or JSON parse raises, `FileData.bad`) yields a
miss; a failed backend write (`writeOk = false`) completes as a silent
no-op, leaving the store unchanged, so it never corrupts a subsequent
read.  (`get` and `set` are total functions of the embedded state: no
exception escapes them by construction.) -/
theorem cache_fault_degrade (st : CacheState) (now : Int) (key : String) :
    ((fsLookup (CacheManager.filePath key) st.files = none ∨
      fsLookup (CacheManager.filePath key) st.files = some FileData.bad) →
      CacheManager.get st now key = JValue.null)
    ∧ (∀ (v : JValue) (ttl : Option Int),
      CacheManager.set st now key v ttl false = st)
    ∧ (∀ (v : JValue) (ttl : Option Int) (now' : Int) (key' : String),
      CacheManager.get (CacheManager.set st now key v ttl false) now' key' =
        CacheManager.get st now' key') := by
  have hset : ∀ (v : JValue) (ttl : Option Int),
      CacheManager.set st now key v ttl false = st := by
    intro v ttl
    unfold CacheManager.set
    split <;> rfl
  refine ⟨fun h => ?_, hset, fun v ttl now' key' => by rw [hset]⟩
  unfold CacheManager.get
  rcases h with h | h <;> by_cases hen : st.enabled = false <;> simp [hen, h]

/-- Witness for `cache_fault_degrade`: a store whose only file for key
`"k"` is unreadable yields a miss, and a failed write leaves it alone. -/
theorem cache_fault_degrade_witness :
    fsLookup (CacheManager.filePath "k")
      [(CacheManager.filePath "k", FileData.bad)] = some FileData.bad
    ∧ CacheManager.get ⟨true, 3600, [(CacheManager.filePath "k", FileData.bad)]⟩
        0 "k" = JValue.null
    ∧ CacheManager.set ⟨true, 3600, [(CacheManager.filePath "k", FileData.bad)]⟩
        0 "k" (JValue.num 1) none false =
      ⟨true, 3600, [(CacheManager.filePath "k", FileData.bad)]⟩ :=
  ⟨by decide,
    (cache_fault_degrade ⟨true, 3600, [(CacheManager.filePath "k", FileData.bad)]⟩
      0 "k").1 (Or.inr (by decide)),
    ((cache_fault_degrade ⟨true, 3600, [(CacheManager.filePath "k", FileData.bad)]⟩
      0 "k").2).1 (JValue.num 1) none⟩

/-- C2: fetch-once-on-hit.  With caching enabled, starting from a key
that misses, a producer that returns a non-null value, a successful
backend write, and a non-negative effective ttl, the first
`get_or_fetch` invokes the producer (count 1) and stores the value; the
second call, in succession (same time), returns the cached value with no
producer invocation (count 0) and leaves the store unchanged, so across
the two calls the producer runs exactly once.  The same holds for
`get_or_fetch_async`, whose body is identical up to `await`. -/
theorem get_or_fetch_fetch_once (st : CacheState) (now : Int) (key : String)
    (v : JValue) (ttl : Option Int) (hen : st.enabled = true)
    (hv : v ≠ JValue.null) (httl : 0 ≤ ttlUse st.ttl_default ttl)
    (hmiss : CacheManager.get st now key = JValue.null) :
    CacheManager.get_or_fetch st now key v ttl true =
      (v, CacheManager.set st now key v ttl true, 1)
    ∧ CacheManager.get_or_fetch (CacheManager.set st now key v ttl true)
        now key v ttl true =
      (v, CacheManager.set st now key v ttl true, 0) := by
  constructor
  · unfold CacheManager.get_or_fetch
    simp [hmiss]
  · unfold CacheManager.get_or_fetch
    rw [get_set_fresh st now key v ttl hen httl]
    simp [hv]

/-- Witness for `get_or_fetch_fetch_once` on an empty enabled store. -/
theorem get_or_fetch_fetch_once_witness :
    (⟨true, 3600, []⟩ : CacheState).enabled = true
    ∧ JValue.str "r" ≠ JValue.null
    ∧ (0 : Int) ≤ ttlUse 3600 none
    ∧ CacheManager.get ⟨true, 3600, []⟩ 0 "k" = JValue.null
    ∧ CacheManager.get_or_fetch ⟨true, 3600, []⟩ 0 "k" (JValue.str "r") none true =
      (JValue.str "r", CacheManager.set ⟨true, 3600, []⟩ 0 "k" (JValue.str "r") none true, 1)
    ∧ CacheManager.get_or_fetch
        (CacheManager.set ⟨true, 3600, []⟩ 0 "k" (JValue.str "r") none true)
        0 "k" (JValue.str "r") none true =
      (JValue.str "r", CacheManager.set ⟨true, 3600, []⟩ 0 "k" (JValue.str "r") none true, 0) :=
  ⟨rfl, by decide, by decide, by decide,
    (get_or_fetch_fetch_once ⟨true, 3600, []⟩ 0 "k" (JValue.str "r") none rfl
      (by decide) (by decide) (by decide)).1,
    (get_or_fetch_fetch_once ⟨true, 3600, []⟩ 0 "k" (JValue.str "r") none rfl
      (by decide) (by decide) (by decide)).2⟩

/-- C10: a producer result of `None` is never effectively cached.  On a
key that misses, `get_or_fetch` with a null-returning producer returns
null after one invocation; the write stores `{"value": null}`, which is
indistinguishable from absence at the `get` interface, so at every later
time `get` still reports a miss and every later `get_or_fetch` on that
key invokes its producer again — whether or not the write succeeded, and
also when caching is disabled. -/
theorem producer_none_not_cached (st : CacheState) (now : Int) (key : String)
    (ttl : Option Int) (w : Bool)
    (hmiss : CacheManager.get st now key = JValue.null) :
    CacheManager.get_or_fetch st now key JValue.null ttl w =
      (JValue.null, CacheManager.set st now key JValue.null ttl w, 1)
    ∧ (∀ t : Int, now ≤ t →
      CacheManager.get (CacheManager.set st now key JValue.null ttl w) t key =
        JValue.null)
    ∧ (∀ (t : Int) (v' : JValue) (ttl' : Option Int) (w' : Bool), now ≤ t →
      (CacheManager.get_or_fetch (CacheManager.set st now key JValue.null ttl w)
        t key v' ttl' w').2.2 = 1) := by
  have hgetnull : ∀ t : Int, now ≤ t →
      CacheManager.get (CacheManager.set st now key JValue.null ttl w) t key =
        JValue.null := by
    intro t ht
    by_cases hen : st.enabled = false
    · unfold CacheManager.set
      rw [if_pos hen]
      unfold CacheManager.get
      rw [if_pos hen]
    · cases w with
      | false =>
        have hkeep : CacheManager.set st now key JValue.null ttl false = st := by
          unfold CacheManager.set
          split <;> rfl
        rw [hkeep]
        exact get_null_mono st now t key hmiss ht
      | true =>
        unfold CacheManager.set
        rw [if_neg hen]
        unfold CacheManager.get
        simp only [if_neg hen, if_true, fsLookup_fsStore_self]
        cases expiredB (some (now + ttlUse st.ttl_default ttl)) t <;> simp
  refine ⟨?_, hgetnull, fun t v' ttl' w' ht => ?_⟩
  · unfold CacheManager.get_or_fetch
    simp [hmiss]
  · unfold CacheManager.get_or_fetch
    simp [hgetnull t ht]

/-- Witness for `producer_none_not_cached` on an empty enabled store. -/
theorem producer_none_not_cached_witness :
    CacheManager.get ⟨true, 3600, []⟩ 0 "k" = JValue.null
    ∧ (0 : Int) ≤ 7
    ∧ CacheManager.get_or_fetch ⟨true, 3600, []⟩ 0 "k" JValue.null none true =
      (JValue.null, CacheManager.set ⟨true, 3600, []⟩ 0 "k" JValue.null none true, 1)
    ∧ CacheManager.get
        (CacheManager.set ⟨true, 3600, []⟩ 0 "k" JValue.null none true) 7 "k" =
      JValue.null
    ∧ (CacheManager.get_or_fetch
        (CacheManager.set ⟨true, 3600, []⟩ 0 "k" JValue.null none true)
        7 "k" (JValue.num 3) none true).2.2 = 1 :=
  ⟨by decide, by decide,
    (producer_none_not_cached ⟨true, 3600, []⟩ 0 "k" none true (by decide)).1,
    ((producer_none_not_cached ⟨true, 3600, []⟩ 0 "k" none true (by decide)).2).1
      7 (by decide),
    ((producer_none_not_cached ⟨true, 3600, []⟩ 0 "k" none true (by decide)).2).2
      7 (JValue.num 3) none true (by decide)⟩

/-- C1 counterexample: two `analyze_reddit` requests whose subreddit lists
are set-equal up to letter case (`["Python"]` versus `["python"]`, equal
after case folding) produce different cache keys, because the handler
sorts the subreddits but does not lower-case them. -/
theorem cache_key_case_counterexample :
    pyLower "Python" = pyLower "python"
    ∧ redditCacheKey "2025-01-01" ["Python"] 7 ["go"] ≠
      redditCacheKey "2025-01-01" ["python"] 7 ["go"] := by
  constructor
  · decide
  · decide

/-- C1 (amended): each handler's cache key is invariant exactly under the
canonicalization that handler applies.  `analyze_reddit`: any reordering
of the subreddits (they are sorted but not case-folded) and any
reordering or case change of the keywords (lower-cased, then sorted).
`analyze_freelance`: any change of the platforms list that preserves the
set of trimmed, lower-cased entries (the categories enter the key
trimmed and lower-cased but in caller order, so they are not
reorder-invariant).  `search_trends`: any change of the keywords that
preserves the multiset of trimmed, lower-cased, non-blank keywords. -/
theorem cache_key_canonicalization (today : String) :
    (∀ (subs1 subs2 : List String) (lb : Int) (kw1 kw2 : List String),
      subs1.Perm subs2 → (kw1.map pyLower).Perm (kw2.map pyLower) →
      redditCacheKey today subs1 lb kw1 = redditCacheKey today subs2 lb kw2)
    ∧ (∀ (p1 p2 : List String) (cats : Option (List String)),
      (∀ s, s ∈ normPlatforms p1 ↔ s ∈ normPlatforms p2) →
      freelanceCacheKey today p1 cats = freelanceCacheKey today p2 cats)
    ∧ (∀ (kw1 kw2 : List String) (tf rg : String),
      (trendsNormKeywords kw1).Perm (trendsNormKeywords kw2) →
      trendsCacheKey today kw1 tf rg = trendsCacheKey today kw2 tf rg) := by
  refine ⟨fun subs1 subs2 lb kw1 kw2 hs hk => ?_, fun p1 p2 cats h => ?_,
    fun kw1 kw2 tf rg h => ?_⟩
  · unfold redditCacheKey
    rw [pySorted_eq_of_perm hs, pySorted_eq_of_perm hk]
  · have hnil : normPlatforms p1 = [] ↔ normPlatforms p2 = [] := by
      simp only [List.eq_nil_iff_forall_not_mem]
      exact ⟨fun H s hs => H s ((h s).mpr hs), fun H s hs => H s ((h s).mp hs)⟩
    have heff : ∀ s, s ∈ effPlatforms p1 ↔ s ∈ effPlatforms p2 := by
      intro s
      unfold effPlatforms
      by_cases hc : normPlatforms p1 = [] ∨ "all" ∈ normPlatforms p1
      · have hc2 : normPlatforms p2 = [] ∨ "all" ∈ normPlatforms p2 := by
          rcases hc with hc | hc
          · exact Or.inl (hnil.mp hc)
          · exact Or.inr ((h "all").mp hc)
        rw [if_pos hc, if_pos hc2]
      · have hc2 : ¬(normPlatforms p2 = [] ∨ "all" ∈ normPlatforms p2) := by
          intro hcc
          apply hc
          rcases hcc with hcc | hcc
          · exact Or.inl (hnil.mpr hcc)
          · exact Or.inr ((h "all").mpr hcc)
        rw [if_neg hc, if_neg hc2]
        exact h s
    have hch : chosenPlatforms p1 = chosenPlatforms p2 := by
      unfold chosenPlatforms
      simp only [heff "freelancer", heff "upwork"]
    unfold freelanceCacheKey
    rw [hch]
  · unfold trendsCacheKey
    rw [pySorted_eq_of_perm h]

/-- Witness for `cache_key_canonicalization`: reordering subreddits,
reordering and re-casing keywords, re-casing platforms, and reordering
trends keywords all leave the keys unchanged. -/
theorem cache_key_canonicalization_witness :
    (["b", "a"] : List String).Perm ["a", "b"]
    ∧ ((["X", "y"] : List String).map pyLower).Perm
      ((["y", "x"] : List String).map pyLower)
    ∧ normPlatforms ["Upwork"] = normPlatforms ["upwork "]
    ∧ (trendsNormKeywords ["Go", " rust"]).Perm
      (trendsNormKeywords ["rust", "go"])
    ∧ redditCacheKey "2025-01-01" ["b", "a"] 7 ["X", "y"] =
      redditCacheKey "2025-01-01" ["a", "b"] 7 ["y", "x"]
    ∧ freelanceCacheKey "2025-01-01" ["Upwork"] none =
      freelanceCacheKey "2025-01-01" ["upwork "] none
    ∧ trendsCacheKey "2025-01-01" ["Go", " rust"] "now 7-d" "US" =
      trendsCacheKey "2025-01-01" ["rust", "go"] "now 7-d" "US" :=
  ⟨by decide, by decide, by decide, by decide,
    (cache_key_canonicalization "2025-01-01").1 ["b", "a"] ["a", "b"] 7
      ["X", "y"] ["y", "x"] (by decide) (by decide),
    ((cache_key_canonicalization "2025-01-01").2).1 ["Upwork"] ["upwork "]
      none (fun s => by rw [show normPlatforms ["Upwork"] = ["upwork"] from by decide,
        show normPlatforms ["upwork "] = ["upwork"] from by decide]),
    ((cache_key_canonicalization "2025-01-01").2).2 ["Go", " rust"]
      ["rust", "go"] "now 7-d" "US" (by decide)⟩

/-- C9: `calculate_growth_rate` returns 0 on fewer than two points,
returns 0 when the first value is zero, and otherwise returns
`(last.value - first.value) / abs(first.value)`; in particular `[]` maps
to 0, `[("d1",0),("d2",5)]` to 0, and `[("d1",10),("d2",15)]` to 0.5. -/
theorem growth_rate_spec :
    DataProcessor.calculate_growth_rate [] = 0
    ∧ (∀ p : String × Rat, DataProcessor.calculate_growth_rate [p] = 0)
    ∧ (∀ (d1 : String) (v1 : Rat) (mid : List (String × Rat))
        (dn : String) (vn : Rat),
      DataProcessor.calculate_growth_rate ((d1, v1) :: (mid ++ [(dn, vn)])) =
        if v1 = 0 then 0 else (vn - v1) / |v1|)
    ∧ DataProcessor.calculate_growth_rate [("d1", 0), ("d2", 5)] = 0
    ∧ DataProcessor.calculate_growth_rate [("d1", 10), ("d2", 15)] = 1 / 2 := by
  refine ⟨rfl, fun p => rfl, fun d1 v1 mid dn vn => ?_, ?_, ?_⟩
  · unfold DataProcessor.calculate_growth_rate
    rw [if_neg (by simp)]
    have hlast : ((d1, v1) :: (mid ++ [(dn, vn)])).getLast? = some (dn, vn) := by
      rw [← List.cons_append, List.getLast?_concat]
    simp [hlast]
  · norm_num [DataProcessor.calculate_growth_rate]
  · norm_num [DataProcessor.calculate_growth_rate]

/-- Within `orderedInsert`, the elements of any fixed score keep their
relative order: filtering by a score commutes with the insertion. -/
theorem orderedInsert_filter_score (a : TechScore) (l : List TechScore)
    (s : Rat) :
    (List.orderedInsert scoreGE a l).filter
      (fun ts => decide (ts.mentions = s)) =
      if a.mentions = s then
        a :: l.filter (fun ts => decide (ts.mentions = s))
      else l.filter (fun ts => decide (ts.mentions = s)) := by
  induction l with
  | nil =>
    by_cases ha : a.mentions = s <;>
      simp [List.orderedInsert, List.filter, ha]
  | cons b t ih =>
    by_cases hab : scoreGE a b
    · by_cases ha : a.mentions = s <;>
        simp [List.orderedInsert, hab, List.filter, ha]
    · have hlt : a.mentions < b.mentions := lt_of_not_le hab
      by_cases ha : a.mentions = s <;> by_cases hb : b.mentions = s
      · exact absurd (show scoreGE a b from le_of_eq (hb.trans ha.symm)) hab
      · simp [List.orderedInsert, hab, List.filter, ha, hb, ih]
      · simp [List.orderedInsert, hab, List.filter, ha, hb, ih]
      · simp [List.orderedInsert, hab, List.filter, ha, hb, ih]

/-- The stable descending sort keeps equal-score elements in their
original relative order: filtering by score commutes with sorting. -/
theorem rankDesc_filter_score (l : List TechScore) (s : Rat) :
    (rankDesc l).filter (fun ts => decide (ts.mentions = s)) =
      l.filter (fun ts => decide (ts.mentions = s)) := by
  unfold rankDesc
  induction l with
  | nil => rfl
  | cons a t ih =>
    show (List.orderedInsert scoreGE a (List.insertionSort scoreGE t)).filter _ = _
    rw [orderedInsert_filter_score]
    by_cases ha : a.mentions = s <;> simp [List.filter, ha, ih]

/-- C8: `rank_by_popularity` on a deterministic-iteration-order mapping
(an insertion-ordered association list) returns exactly the entries of
the mapping (a permutation), sorted descending by score, with the
entries of every fixed score kept in the mapping's iteration order; in
particular a/5, b/5, c/10 in insertion order a,b,c ranks as c,a,b. -/
theorem ranking_stability :
    (∀ l : List (String × Rat),
      (RedditAnalyzer.rank_by_popularity l).Perm
        (l.map fun kv => (⟨kv.1, kv.2⟩ : TechScore))
      ∧ List.Sorted scoreGE (RedditAnalyzer.rank_by_popularity l)
      ∧ (∀ s : Rat,
        (RedditAnalyzer.rank_by_popularity l).filter
          (fun ts => decide (ts.mentions = s)) =
        (l.map fun kv => (⟨kv.1, kv.2⟩ : TechScore)).filter
          (fun ts => decide (ts.mentions = s))))
    ∧ RedditAnalyzer.rank_by_popularity [("a", 5), ("b", 5), ("c", 10)] =
      [⟨"c", 10⟩, ⟨"a", 5⟩, ⟨"b", 5⟩] := by
  constructor
  · intro l
    refine ⟨List.perm_insertionSort _ _, List.sorted_insertionSort _ _,
      fun s => rankDesc_filter_score _ s⟩
  · norm_num [RedditAnalyzer.rank_by_popularity, rankDesc,
      List.insertionSort, List.orderedInsert, scoreGE]

theorem dlookup_append (k : String) (l1 l2 : List (String × Rat)) :
    dlookup k (l1 ++ l2) =
      match dlookup k l1 with
      | some v => some v
      | none => dlookup k l2 := by
  induction l1 with
  | nil => simp [dlookup]
  | cons kv t ih =>
    obtain ⟨n, v⟩ := kv
    by_cases hn : n = k <;> simp [dlookup, hn, ih]

theorem dlookup_eq_none_of_any_false {d : List (String × Rat)} {k : String}
    (h : d.any (fun kv => kv.1 == k) = false) : dlookup k d = none := by
  induction d with
  | nil => rfl
  | cons kv t ih =>
    obtain ⟨n, v⟩ := kv
    simp only [List.any_cons, Bool.or_eq_false_iff, beq_eq_false_iff_ne] at h
    simp [dlookup, h.1, ih h.2]

theorem dlookup_isSome_of_any {d : List (String × Rat)} {k : String}
    (h : d.any (fun kv => kv.1 == k) = true) : ∃ v, dlookup k d = some v := by
  induction d with
  | nil => simp at h
  | cons kv t ih =>
    obtain ⟨n, v⟩ := kv
    by_cases hn : n = k
    · exact ⟨v, by simp [dlookup, hn]⟩
    · have hb : (n == k) = false := by simp [hn]
      simp only [List.any_cons, hb, Bool.false_or] at h
      obtain ⟨w, hw⟩ := ih h
      exact ⟨w, by simp [dlookup, hn, hw]⟩

theorem dlookup_map_update (d : List (String × Rat)) (k k' : String) (m : Rat) :
    dlookup k (d.map (fun kv => if kv.1 == k' then (kv.1, kv.2 + m) else kv)) =
      match dlookup k d with
      | none => none
      | some v => some (if k' = k then v + m else v) := by
  induction d with
  | nil => rfl
  | cons kv t ih =>
    obtain ⟨n, v⟩ := kv
    by_cases hk : n = k'
    · have hb : (n == k') = true := by simp [hk]
      simp only [List.map_cons, hb, if_true]
      by_cases hn : n = k
      · have hkk : k' = k := hk.symm.trans hn
        simp [dlookup, hn, hkk]
      · simp only [dlookup, if_neg hn]
        exact ih
    · have hb : (n == k') = false := by simp [hk]
      simp only [List.map_cons, hb, Bool.false_eq_true, if_false]
      by_cases hn : n = k
      · have hkk : ¬k' = k := fun hh => hk (hn.trans hh.symm)
        simp [dlookup, hn, hkk]
      · simp only [dlookup, if_neg hn]
        exact ih

theorem dlookup_dictAdd (d : List (String × Rat)) (k k' : String) (m : Rat) :
    dlookup k (dictAdd d k' m) =
      if k' = k then some ((dlookup k d).getD 0 + m) else dlookup k d := by
  unfold dictAdd
  cases hany : d.any (fun kv => kv.1 == k') with
  | true =>
    rw [if_pos rfl, dlookup_map_update]
    by_cases hk : k' = k
    · subst hk
      obtain ⟨w, hw⟩ := dlookup_isSome_of_any hany
      simp [hw]
    · cases hl : dlookup k d <;> simp [hl, hk]
  | false =>
    rw [if_neg (by simp), dlookup_append]
    by_cases hk : k' = k
    · subst hk
      rw [dlookup_eq_none_of_any_false hany]
      simp [dlookup]
    · cases hl : dlookup k d <;> simp [hl, dlookup, hk]

theorem dlookup_foldl_items (w : Rat) (items : List TechScore)
    (d : List (String × Rat)) (k : String) :
    (dlookup k (items.foldl
        (fun d it => dictAdd d (pyLower (pyStrip it.technology))
          (it.mentions * w)) d)).getD 0 =
      (dlookup k d).getD 0 +
        ((items.filter (fun it => pyLower (pyStrip it.technology) == k)).map
          (fun it => it.mentions * w)).sum
    ∧ (dlookup k (items.foldl
        (fun d it => dictAdd d (pyLower (pyStrip it.technology))
          (it.mentions * w)) d)).isSome =
      ((dlookup k d).isSome ||
        items.any (fun it => pyLower (pyStrip it.technology) == k)) := by
  induction items generalizing d with
  | nil => simp
  | cons it t ih =>
    simp only [List.foldl_cons]
    by_cases hk : pyLower (pyStrip it.technology) = k
    · have hd2 : dlookup k (dictAdd d (pyLower (pyStrip it.technology))
          (it.mentions * w)) = some ((dlookup k d).getD 0 + it.mentions * w) := by
        rw [dlookup_dictAdd, if_pos hk]
      have hbeq : (pyLower (pyStrip it.technology) == k) = true := by simp [hk]
      constructor
      · rw [(ih _).1, hd2]
        simp only [List.filter_cons, hbeq, if_true, List.map_cons, List.sum_cons,
          Option.getD_some]
        ring
      · rw [(ih _).2, hd2]
        simp [hbeq]
    · have hd2 : dlookup k (dictAdd d (pyLower (pyStrip it.technology))
          (it.mentions * w)) = dlookup k d := by
        rw [dlookup_dictAdd, if_neg hk]
      have hbeq : (pyLower (pyStrip it.technology) == k) = false := by simp [hk]
      constructor
      · rw [(ih _).1, hd2]
        simp [List.filter_cons, hbeq]
      · rw [(ih _).2, hd2]
        simp [hbeq]

theorem dlookup_aggDict_general (weights : List (String × Rat))
    (sources : List SourceResult) (d : List (String × Rat)) (k : String) :
    (dlookup k (sources.foldl
        (fun d src => src.top_technologies.foldl
          (fun d it => dictAdd d (pyLower (pyStrip it.technology))
            (it.mentions * DataProcessor.srcWeight weights src.source)) d)
        d)).getD 0 =
      (dlookup k d).getD 0 + specTechTotal sources weights k
    ∧ (dlookup k (sources.foldl
        (fun d src => src.top_technologies.foldl
          (fun d it => dictAdd d (pyLower (pyStrip it.technology))
            (it.mentions * DataProcessor.srcWeight weights src.source)) d)
        d)).isSome =
      ((dlookup k d).isSome || sources.any (fun src =>
        src.top_technologies.any
          (fun it => pyLower (pyStrip it.technology) == k))) := by
  induction sources generalizing d with
  | nil => simp [specTechTotal]
  | cons src t ih =>
    simp only [List.foldl_cons]
    constructor
    · rw [(ih _).1,
        (dlookup_foldl_items (DataProcessor.srcWeight weights src.source)
          src.top_technologies d k).1]
      simp only [specTechTotal, List.map_cons, List.sum_cons]
      ring
    · rw [(ih _).2,
        (dlookup_foldl_items (DataProcessor.srcWeight weights src.source)
          src.top_technologies d k).2]
      simp [Bool.or_assoc]

theorem dlookup_aggDict (sources : List SourceResult)
    (weights : List (String × Rat)) (k : String) :
    (dlookup k (DataProcessor.aggDict sources weights)).getD 0 =
      specTechTotal sources weights k
    ∧ (dlookup k (DataProcessor.aggDict sources weights)).isSome =
      sources.any (fun src => src.top_technologies.any
        (fun it => pyLower (pyStrip it.technology) == k)) := by
  have h := dlookup_aggDict_general weights sources [] k
  unfold DataProcessor.aggDict
  simpa [dlookup] using h

theorem keys_nodup_dictAdd {d : List (String × Rat)} (k : String) (m : Rat)
    (h : (d.map Prod.fst).Nodup) : ((dictAdd d k m).map Prod.fst).Nodup := by
  unfold dictAdd
  cases hany : d.any (fun kv => kv.1 == k) with
  | true =>
    rw [if_pos rfl]
    have hmap : (d.map (fun kv => if kv.1 == k then (kv.1, kv.2 + m) else kv)).map
        Prod.fst = d.map Prod.fst := by
      rw [List.map_map]
      apply List.map_congr_left
      intro kv _
      by_cases hkv : kv.1 = k <;> simp [hkv]
    rw [hmap]
    exact h
  | false =>
    rw [if_neg (by simp), List.map_append]
    have hnot : k ∉ d.map Prod.fst := by
      intro hmem
      obtain ⟨kv, hkv, hfst⟩ := List.mem_map.mp hmem
      rw [List.any_eq_false] at hany
      have hfalse := hany kv hkv
      rw [hfst] at hfalse
      simp at hfalse
    simp [List.nodup_append, h, hnot]

theorem keys_nodup_foldl_items (w : Rat) (items : List TechScore)
    (d : List (String × Rat)) (h : (d.map Prod.fst).Nodup) :
    ((items.foldl (fun d it => dictAdd d (pyLower (pyStrip it.technology))
      (it.mentions * w)) d).map Prod.fst).Nodup := by
  induction items generalizing d with
  | nil => exact h
  | cons it t ih =>
    simp only [List.foldl_cons]
    exact ih _ (keys_nodup_dictAdd _ _ h)

theorem aggDict_keys_nodup (sources : List SourceResult)
    (weights : List (String × Rat)) :
    ((DataProcessor.aggDict sources weights).map Prod.fst).Nodup := by
  unfold DataProcessor.aggDict
  have hgen : ∀ (srcs : List SourceResult) (d : List (String × Rat)),
      (d.map Prod.fst).Nodup →
      ((srcs.foldl (fun d src => src.top_technologies.foldl
        (fun d it => dictAdd d (pyLower (pyStrip it.technology))
          (it.mentions * DataProcessor.srcWeight weights src.source)) d)
        d).map Prod.fst).Nodup := by
    intro srcs
    induction srcs with
    | nil => exact fun d h => h
    | cons src t ih =>
      intro d h
      simp only [List.foldl_cons]
      exact ih _ (keys_nodup_foldl_items _ _ _ h)
  exact hgen sources [] (by simp)

theorem dlookup_eq_of_mem {d : List (String × Rat)} {k : String} {v : Rat}
    (hnd : (d.map Prod.fst).Nodup) (hm : (k, v) ∈ d) : dlookup k d = some v := by
  induction d with
  | nil => simp at hm
  | cons kv t ih =>
    obtain ⟨n, w⟩ := kv
    simp only [List.map_cons, List.nodup_cons] at hnd
    rcases List.mem_cons.mp hm with hm | hm
    · obtain ⟨h1, h2⟩ := Prod.mk.injEq k v n w ▸ hm
      subst h1
      subst h2
      simp [dlookup]
    · by_cases hn : n = k
      · exfalso
        apply hnd.1
        subst hn
        exact List.mem_map.mpr ⟨(n, v), hm, rfl⟩
      · simp only [dlookup, if_neg hn]
        exact ih hnd.2 hm

theorem dlookup_isSome_iff_mem {d : List (String × Rat)} {k : String} :
    (dlookup k d).isSome = true ↔ k ∈ d.map Prod.fst := by
  induction d with
  | nil => simp [dlookup]
  | cons kv t ih =>
    obtain ⟨n, v⟩ := kv
    by_cases hn : n = k
    · simp [dlookup, hn]
    · have : ¬k = n := fun hh => hn hh.symm
      simp [dlookup, hn, ih, this]

/-- C4: `aggregate_multi_source` sums `mentions * weights.get(source, 1.0)`
into one total per trimmed lower-cased technology name (`specTechTotal`,
the spec's formula) and returns exactly those totals — one entry per
occurring name, no duplicates — ranked descending; in particular
`{"Python": 3}` and `{"python": 4}` collapse to the single entry
`python: 7`, and `python 10` from source x (weight 1) plus `python 5`
from source y (weight 2) yields `python: 20`. -/
theorem aggregate_weighted_casefold :
    (∀ (sources : List SourceResult) (weights : List (String × Rat)),
      (∀ ts ∈ DataProcessor.aggregate_multi_source sources weights,
        ts.mentions = specTechTotal sources weights ts.technology)
      ∧ ((DataProcessor.aggregate_multi_source sources weights).map
          TechScore.technology).Nodup
      ∧ (∀ tech : String,
        (∃ ts ∈ DataProcessor.aggregate_multi_source sources weights,
          ts.technology = tech) ↔
        (∃ src ∈ sources, ∃ it ∈ src.top_technologies,
          pyLower (pyStrip it.technology) = tech))
      ∧ List.Sorted scoreGE
          (DataProcessor.aggregate_multi_source sources weights))
    ∧ DataProcessor.aggregate_multi_source
        [⟨"x", [⟨"Python", 3⟩]⟩, ⟨"y", [⟨"python", 4⟩]⟩] [] = [⟨"python", 7⟩]
    ∧ DataProcessor.aggregate_multi_source
        [⟨"x", [⟨"python", 10⟩]⟩, ⟨"y", [⟨"python", 5⟩]⟩] [("y", 2)] =
      [⟨"python", 20⟩] := by
  refine ⟨fun sources weights => ?_, ?_, ?_⟩
  · unfold DataProcessor.aggregate_multi_source rankDesc
    set X := (DataProcessor.aggDict sources weights).map
      (fun kv => (⟨kv.1, kv.2⟩ : TechScore)) with hX
    refine ⟨?_, ?_, ?_, List.sorted_insertionSort _ _⟩
    · intro ts hts
      have htsX : ts ∈ X := (List.perm_insertionSort scoreGE X).subset hts
      rw [hX] at htsX
      obtain ⟨kv, hkv, rfl⟩ := List.mem_map.mp htsX
      have hsome : dlookup kv.1 (DataProcessor.aggDict sources weights) =
          some kv.2 :=
        dlookup_eq_of_mem (aggDict_keys_nodup sources weights)
          (by simpa using hkv)
      have htotal := (dlookup_aggDict sources weights kv.1).1
      rw [hsome] at htotal
      simpa using htotal
    · have hmapnames : X.map TechScore.technology =
          (DataProcessor.aggDict sources weights).map Prod.fst := by
        rw [hX, List.map_map]
        rfl
      have hpermnames :
          ((List.insertionSort scoreGE X).map TechScore.technology).Perm
            (X.map TechScore.technology) :=
        (List.perm_insertionSort scoreGE X).map _
      exact hpermnames.nodup_iff.mpr
        (hmapnames ▸ aggDict_keys_nodup sources weights)
    · intro tech
      constructor
      · rintro ⟨ts, hts, rfl⟩
        have htsX : ts ∈ X := (List.perm_insertionSort scoreGE X).subset hts
        rw [hX] at htsX
        obtain ⟨kv, hkv, rfl⟩ := List.mem_map.mp htsX
        have hmem : kv.1 ∈ (DataProcessor.aggDict sources weights).map
            Prod.fst := List.mem_map.mpr ⟨kv, hkv, rfl⟩
        have hsome : (dlookup kv.1
            (DataProcessor.aggDict sources weights)).isSome = true :=
          dlookup_isSome_iff_mem.mpr hmem
        rw [(dlookup_aggDict sources weights kv.1).2] at hsome
        simpa [List.any_eq_true] using hsome
      · rintro ⟨src, hsrc, it, hit, heq⟩
        have hany : sources.any (fun src => src.top_technologies.any
            (fun it => pyLower (pyStrip it.technology) == tech)) = true := by
          simp only [List.any_eq_true, beq_iff_eq]
          exact ⟨src, hsrc, it, hit, heq⟩
        have hsome : (dlookup tech
            (DataProcessor.aggDict sources weights)).isSome = true := by
          rw [(dlookup_aggDict sources weights tech).2]
          exact hany
        obtain ⟨kv, hkv, hfst⟩ :=
          List.mem_map.mp (dlookup_isSome_iff_mem.mp hsome)
        refine ⟨⟨kv.1, kv.2⟩, ?_, hfst⟩
        apply (List.perm_insertionSort scoreGE X).symm.subset
        rw [hX]
        exact List.mem_map.mpr ⟨kv, hkv, rfl⟩
  · have h1 : pyLower (pyStrip "Python") = "python" := by decide
    have h2 : pyLower (pyStrip "python") = "python" := by decide
    norm_num [DataProcessor.aggregate_multi_source, DataProcessor.aggDict,
      DataProcessor.srcWeight, dictAdd, dlookup, rankDesc, List.insertionSort,
      List.orderedInsert, scoreGE, h1, h2]
  · have h2 : pyLower (pyStrip "python") = "python" := by decide
    have hyx : (("y" : String) = "x") = False := by decide
    norm_num [DataProcessor.aggregate_multi_source, DataProcessor.aggDict,
      DataProcessor.srcWeight, dictAdd, dlookup, rankDesc, List.insertionSort,
      List.orderedInsert, scoreGE, h2, hyx]

/-- Witness for `aggregate_weighted_casefold`: the weighted example's
single output entry carries exactly the spec-side weighted total. -/
theorem aggregate_weighted_casefold_witness :
    (⟨"python", 20⟩ : TechScore) ∈ DataProcessor.aggregate_multi_source
      [⟨"x", [⟨"python", 10⟩]⟩, ⟨"y", [⟨"python", 5⟩]⟩] [("y", 2)]
    ∧ (⟨"python", 20⟩ : TechScore).mentions = specTechTotal
      [⟨"x", [⟨"python", 10⟩]⟩, ⟨"y", [⟨"python", 5⟩]⟩] [("y", 2)] "python" := by
  have hmem : (⟨"python", 20⟩ : TechScore) ∈ DataProcessor.aggregate_multi_source
      [⟨"x", [⟨"python", 10⟩]⟩, ⟨"y", [⟨"python", 5⟩]⟩] [("y", 2)] := by
    rw [aggregate_weighted_casefold.2.2]
    exact List.mem_singleton.mpr rfl
  exact ⟨hmem,
    (aggregate_weighted_casefold.1
      [⟨"x", [⟨"python", 10⟩]⟩, ⟨"y", [⟨"python", 5⟩]⟩] [("y", 2)]).1
      ⟨"python", 20⟩ hmem⟩

/-- C5 counterexample: the claim that
`detect_anomalies([1,1,1,1,100], z_threshold=2.0)` returns a list
containing the index of 100 fails: with the sample standard deviation
(denominator `n-1`) that the code computes, the z-score of 100 is
`79.2 / sqrt(1960.2) ≈ 1.789 < 2.0`, so the result is empty.  (The
spec's example would hold for the population standard deviation, which
the code does not use.) -/
theorem anomaly_example_counterexample :
    DataProcessor.detect_anomalies [1, 1, 1, 1, 100] 2 = []
    ∧ (4 : ℕ) ∉ DataProcessor.detect_anomalies [1, 1, 1, 1, 100] 2 := by
  have h : DataProcessor.detect_anomalies [1, 1, 1, 1, 100] 2 = [] := by
    norm_num [DataProcessor.detect_anomalies, DataProcessor.pyMean,
      DataProcessor.pyVar, List.filter, List.range, List.range.loop]
  refine ⟨h, ?_⟩
  rw [h]
  exact List.not_mem_nil 4

/-- The sample variance is a sum of squares over a positive count. -/
theorem pyVar_nonneg (values : List Rat) : 0 ≤ DataProcessor.pyVar values := by
  unfold DataProcessor.pyVar
  apply div_nonneg
  · apply List.sum_nonneg
    intro x hx
    obtain ⟨v, _, rfl⟩ := List.mem_map.mp hx
    positivity
  · positivity

/-- For a positive variance and non-negative threshold, the z-score test
`z <= |d| / sqrt(var)` is equivalent to its square-free form. -/
theorem le_abs_div_sqrt_iff {z var d : ℝ} (hvar : 0 < var) (hz : 0 ≤ z) :
    z ≤ |d| / Real.sqrt var ↔ z ^ 2 * var ≤ d ^ 2 := by
  have hs : 0 < Real.sqrt var := Real.sqrt_pos.mpr hvar
  rw [le_div_iff₀ hs,
    ← pow_le_pow_iff_left₀ (mul_nonneg hz hs.le) (abs_nonneg d) two_ne_zero,
    mul_pow, Real.sq_sqrt hvar.le, sq_abs]

/-- C5 (amended): `detect_anomalies` computes the mean and the sample
standard deviation (denominator `n-1`, guarded to at least 1) and
returns exactly the indices where `|v - mean| / std >= z_threshold`
(stated over the reals via `Real.sqrt`); it returns the empty list on
zero variance (which subsumes fewer than 2 values).  On `[1,1,1,1,100]`
with `z_threshold = 2.0` it returns `[]` — the outlier's z-score is
about 1.789 — while with `z_threshold = 1.7` it returns `[4]`, the index
of 100; on the zero-variance input `[5,5,5]` it returns `[]`. -/
theorem detect_anomalies_spec :
    (∀ (values : List Rat) (z : Rat), DataProcessor.pyVar values = 0 →
      DataProcessor.detect_anomalies values z = [])
    ∧ (∀ (values : List Rat) (z : Rat) (i : ℕ),
      DataProcessor.pyVar values ≠ 0 →
      (i ∈ DataProcessor.detect_anomalies values z ↔
        i < values.length ∧
        (z : ℝ) ≤ |(values.getD i 0 : ℝ) - (DataProcessor.pyMean values : ℝ)| /
          Real.sqrt (DataProcessor.pyVar values : ℝ)))
    ∧ DataProcessor.detect_anomalies [1, 1, 1, 1, 100] 2 = []
    ∧ DataProcessor.detect_anomalies [1, 1, 1, 1, 100] (17 / 10) = [4]
    ∧ DataProcessor.detect_anomalies [5, 5, 5] 3 = [] := by
  refine ⟨fun values z h => ?_, fun values z i hvar => ?_, ?_, ?_, ?_⟩
  · unfold DataProcessor.detect_anomalies
    by_cases hv : values = []
    · rw [if_pos hv]
    · rw [if_neg hv, if_pos h]
  · have hvpos : (0 : ℚ) < DataProcessor.pyVar values :=
      lt_of_le_of_ne (pyVar_nonneg values) (Ne.symm hvar)
    have hvne : values ≠ [] := by
      intro h
      subst h
      exact hvar (by norm_num [DataProcessor.pyVar])
    have hvposR : (0 : ℝ) < (DataProcessor.pyVar values : ℝ) := by
      exact_mod_cast hvpos
    unfold DataProcessor.detect_anomalies
    rw [if_neg hvne, if_neg hvar, List.mem_filter, List.mem_range]
    by_cases hz : z < 0
    · simp only [if_pos hz]
      constructor
      · rintro ⟨hi, _⟩
        refine ⟨hi, ?_⟩
        have hzR : (z : ℝ) < 0 := by exact_mod_cast hz
        have h0 : (0 : ℝ) ≤
            |(values.getD i 0 : ℝ) - (DataProcessor.pyMean values : ℝ)| /
              Real.sqrt (DataProcessor.pyVar values : ℝ) :=
          div_nonneg (abs_nonneg _) (Real.sqrt_nonneg _)
        linarith
      · rintro ⟨hi, _⟩
        exact ⟨hi, trivial⟩
    · push_neg at hz
      simp only [if_neg (not_lt.mpr hz), decide_eq_true_eq]
      have hzR : (0 : ℝ) ≤ (z : ℝ) := by exact_mod_cast hz
      constructor
      · rintro ⟨hi, hcmp⟩
        refine ⟨hi, ?_⟩
        rw [le_abs_div_sqrt_iff hvposR hzR]
        exact_mod_cast hcmp
      · rintro ⟨hi, hle⟩
        refine ⟨hi, ?_⟩
        rw [le_abs_div_sqrt_iff hvposR hzR] at hle
        exact_mod_cast hle
  · norm_num [DataProcessor.detect_anomalies, DataProcessor.pyMean,
      DataProcessor.pyVar, List.filter, List.range, List.range.loop]
  · norm_num [DataProcessor.detect_anomalies, DataProcessor.pyMean,
      DataProcessor.pyVar, List.filter, List.range, List.range.loop]
    try simp
  · norm_num [DataProcessor.detect_anomalies, DataProcessor.pyMean,
      DataProcessor.pyVar, List.filter, List.range, List.range.loop]

/-- Witness for `detect_anomalies_spec`: the equivalence instantiated on
the non-degenerate example input. -/
theorem detect_anomalies_spec_witness :
    DataProcessor.pyVar [1, 1, 1, 1, 100] ≠ 0
    ∧ ((4 : ℕ) ∈ DataProcessor.detect_anomalies [1, 1, 1, 1, 100] (17 / 10) ↔
      4 < ([1, 1, 1, 1, 100] : List ℚ).length ∧
      ((17 / 10 : ℚ) : ℝ) ≤
        |(([1, 1, 1, 1, 100] : List ℚ).getD 4 0 : ℝ) -
          (DataProcessor.pyMean [1, 1, 1, 1, 100] : ℝ)| /
          Real.sqrt (DataProcessor.pyVar [1, 1, 1, 1, 100] : ℝ)) :=
  ⟨by norm_num [DataProcessor.pyVar, DataProcessor.pyMean],
    detect_anomalies_spec.2.1 [1, 1, 1, 1, 100] (17 / 10) 4
      (by norm_num [DataProcessor.pyVar, DataProcessor.pyMean])⟩
